import Mathlib

/-!
# Verification of the Energy animation-flow component (arwes)

Shallow embedding of `src/packages/animation/src/Energy/Energy.js`.

The component is a four-state animation-flow state machine
(`entering / entered / exiting / exited`) with:
* a duration resolver merging default / ambient / declared / override layers,
* an activation evaluator (root vs. nested, merge vs. strict coupling),
* a single-slot timer scheduler sequencing the transitions,
* lifecycle hooks (`componentDidMount` / `componentDidUpdate`).

JavaScript objects with optional numeric fields are embedded as structures of
`Option Nat` fields (`none` = the key is absent / `undefined`); object spread
`{...a, ...b}` becomes a field-wise overlay taking `b`'s field when present.
A JavaScript exception (reading a property of `undefined`) is embedded as
`Except.error`.  The `setTimeout` slot `this.scheduleTimeout` is embedded as
an `Option (Nat × Callback)` where `Callback` enumerates the four closure
shapes the source ever schedules.
-/

namespace Energy

/-- The four flow states: `ENTERING`, `ENTERED`, `EXITING`, `EXITED`. -/
inductive FlowValue
  | entering
  | entered
  | exiting
  | exited
deriving DecidableEq, Repr

/-- A resolved duration `{ enter, exit, delay }` (milliseconds). -/
structure Duration where
  enter : Nat
  exit : Nat
  delay : Nat
deriving DecidableEq, Repr

/-- A partial duration object: each key may be absent (`none` = no key /
`undefined` value). -/
structure PartialDuration where
  enter : Option Nat := none
  exit : Option Nat := none
  delay : Option Nat := none
deriving DecidableEq, Repr

/-- A duration argument as accepted by the `duration` prop and by
`updateDuration`: either a bare number or a partial object. -/
inductive DurationProp
  | num (n : Nat)
  | obj (d : PartialDuration)
deriving DecidableEq, Repr

/-- Object spread `{...base, ...p}` restricted to the three duration keys:
each field of `p` that is present overwrites the corresponding field of
`base`. -/
def spreadDuration (base : Duration) (p : PartialDuration) : Duration :=
  { enter := p.enter.getD base.enter
  , exit := p.exit.getD base.exit
  , delay := p.delay.getD base.delay }

/-- Embeds `const defaultDuration = { enter: 200, exit: 200, delay: 0 }`. -/
def defaultDuration : Duration := { enter := 200, exit := 200, delay := 0 }

/-- The conversion applied to the `duration` prop inside `getDuration`:
`typeof propValue === 'number' ? { enter: propValue, exit: propValue } : propValue`.
An absent prop behaves as an empty object under spread. -/
def propDurationOf : Option DurationProp → PartialDuration
  | none => {}
  | some (.num n) => { enter := some n, exit := some n }
  | some (.obj d) => d

/-- The conversion applied by `updateDuration` to its argument:
`typeof duration === 'number' ? { enter: duration, exit: duration } : duration`. -/
def customDurationOf : DurationProp → PartialDuration
  | .num n => { enter := some n, exit := some n }
  | .obj d => d

/-- Embeds `getDuration`, as a function of the ambient context duration, the
`duration` prop, and the stored `customDuration`:
`{ ...defaultDuration, ...providedDuration, ...propDuration, ...customDuration }`. -/
def getDurationFrom (provided : Option PartialDuration) (prop : Option DurationProp)
    (custom : Option PartialDuration) : Duration :=
  spreadDuration
    (spreadDuration
      (spreadDuration defaultDuration (provided.getD {}))
      (propDurationOf prop))
    (custom.getD {})

/-- The ambient animation configuration `{ animate?, duration? }` supplied by
the animation context. -/
structure AnimationContext where
  animate : Option Bool := none
  duration : Option PartialDuration := none
deriving DecidableEq, Repr

/-- The parent flow snapshot `{ value, [value]: true }` as far as the code
reads it: `flow.entering` / `flow.entered` are the derived boolean flags. -/
structure FlowSnapshot where
  value : FlowValue
deriving DecidableEq, Repr

/-- Embeds `flow.entering` — truthy exactly when the tag is `ENTERING`. -/
def FlowSnapshot.entering (f : FlowSnapshot) : Bool := f.value = FlowValue.entering

/-- Embeds `flow.entered` — truthy exactly when the tag is `ENTERED`. -/
def FlowSnapshot.entered (f : FlowSnapshot) : Bool := f.value = FlowValue.entered

/-- The component props.  `onActivate` is embedded as presence of the handler
(`this.props.onActivate` truthiness); `parentEnergyContext` carries only the
parent flow snapshot, the sole field the component reads from it. -/
structure Props where
  animate : Option Bool := none
  root : Option Bool := none
  activate : Option Bool := none
  duration : Option DurationProp := none
  merge : Option Bool := none
  onActivate : Bool := false
  animationContext : AnimationContext := {}
  parentEnergyContext : Option FlowSnapshot := none
deriving DecidableEq, Repr

/-- Embeds `isAnimate()`: starts from `true`, overridden by the ambient context
`animate` when defined, overridden in turn by the `animate` prop when
defined. -/
def isAnimate (p : Props) : Bool :=
  let animate := true
  let animate := match p.animationContext.animate with
    | some provided => provided
    | none => animate
  match p.animate with
  | some propAnimate => propAnimate
  | none => animate

/-- Embeds `isRoot()`: `true` unless a parent energy context is present, with the
`root` prop overriding either way when defined. -/
def isRoot (p : Props) : Bool :=
  let root := true
  let root := if p.parentEnergyContext.isSome then false else root
  match p.root with
  | some r => r
  | none => root

/-- Embeds `isActivated()`.  A root node returns the `activate` prop when defined,
else `true`.  A non-root node reads `this.props.parentEnergyContext.flow`:
when the parent context is absent that property access throws, embedded as
`Except.error`; otherwise `merge` mode activates on parent `entering` or
`entered`, strict mode on parent `entered` only. -/
def isActivated (p : Props) : Except String Bool :=
  if isRoot p then
    match p.activate with
    | some a => Except.ok a
    | none => Except.ok true
  else
    match p.parentEnergyContext with
    | none => Except.error "TypeError: cannot read property flow of undefined"
    | some parentFlow =>
      if p.merge.getD false then
        Except.ok (parentFlow.entering || parentFlow.entered)
      else
        Except.ok parentFlow.entered

/-- The four closure shapes ever passed to `schedule`:
* `enterMain` — `enter()`'s outer callback (re-read duration, set `ENTERING`,
  schedule `entered` after `duration.enter`);
* `enterDone` — `() => this.setFlowValue(ENTERED)`;
* `exitMain` — `exit()`'s outer callback (re-read duration, set `EXITING`,
  schedule `exited` after `duration.exit`);
* `exitDone` — `() => this.setFlowValue(EXITED)`. -/
inductive Callback
  | enterMain
  | enterDone
  | exitMain
  | exitDone
deriving DecidableEq, Repr

/-- The mutable instance state of a `Component`: the flow value held in React
state, the sticky history flags, the last handled activation, the stored
duration override, and the single pending-timer slot (`none` = no pending
timer; `some (t, cb)` = `cb` scheduled to run after `t` ms). -/
structure CState where
  flowValue : FlowValue
  flowHasEntered : Bool := false
  flowHasExited : Bool := false
  activated : Bool := false
  customDuration : Option PartialDuration := none
  scheduleTimeout : Option (Nat × Callback) := none
deriving DecidableEq, Repr

/-- Embeds `getDuration()` of a component instance: ambient and declared layers come
from the props, the override layer from the stored `customDuration`. -/
def getDuration (p : Props) (c : CState) : Duration :=
  getDurationFrom p.animationContext.duration p.duration c.customDuration

/-- Embeds `getDurationIn()` = `duration.enter + duration.delay`. -/
def getDurationIn (p : Props) (c : CState) : Nat :=
  (getDuration p c).enter + (getDuration p c).delay

/-- Embeds `getDurationOut()` = `duration.exit`. -/
def getDurationOut (p : Props) (c : CState) : Nat :=
  (getDuration p c).exit

/-- Embeds `updateDuration(duration)`: converts a bare number to `{enter, exit}` and
stores the result as the new `customDuration`, replacing any previous one. -/
def updateDuration (c : CState) (d : DurationProp) : CState :=
  { c with customDuration := some (customDurationOf d) }

/-- Embeds `setFlowValue(flowValue)`: updates the flow value and, once the update is
applied, marks `flowHasEntered` on reaching `ENTERED` and `flowHasExited` on
reaching `EXITED`. -/
def setFlowValue (c : CState) (v : FlowValue) : CState :=
  { c with
    flowValue := v
    flowHasEntered := if v = FlowValue.entered then true else c.flowHasEntered
    flowHasExited := if v = FlowValue.exited then true else c.flowHasExited }

/-- Embeds `unschedule()`: `clearTimeout` on the pending slot. -/
def unschedule (c : CState) : CState :=
  { c with scheduleTimeout := none }

/-- Embeds `schedule(time, callback)`: cancels the pending timer, then stores the new
one in the single slot. -/
def schedule (c : CState) (time : Nat) (cb : Callback) : CState :=
  { unschedule c with scheduleTimeout := some (time, cb) }

/-- Embeds `enter()`: no-op while `ENTERING`/`ENTERED`; otherwise computes
`delay = duration.delay` when `EXITED`, else `0`, and schedules the enter
sequence after `delay`. -/
def enter (p : Props) (c : CState) : CState :=
  if c.flowValue = FlowValue.entering ∨ c.flowValue = FlowValue.entered then
    c
  else
    let duration := getDuration p c
    let delay := if c.flowValue = FlowValue.exited then duration.delay else 0
    schedule c delay Callback.enterMain

/-- Embeds `exit()`: no-op while `EXITING`/`EXITED`; otherwise schedules the exit
sequence after `0`. -/
def exit (_p : Props) (c : CState) : CState :=
  if c.flowValue = FlowValue.exiting ∨ c.flowValue = FlowValue.exited then
    c
  else
    schedule c 0 Callback.exitMain

/-- The body of each scheduled closure, run when its timer fires.  The outer
callbacks re-read `getDuration()` at fire time with the props current at that
moment. -/
def runCallback (p : Props) (c : CState) : Callback → CState
  | Callback.enterMain =>
    let duration := getDuration p c
    schedule (setFlowValue c FlowValue.entering) duration.enter Callback.enterDone
  | Callback.enterDone => setFlowValue c FlowValue.entered
  | Callback.exitMain =>
    let duration := getDuration p c
    schedule (setFlowValue c FlowValue.exiting) duration.exit Callback.exitDone
  | Callback.exitDone => setFlowValue c FlowValue.exited

/-- The pending timer fires: the slot is consumed and its callback body runs
(with the props current at fire time).  No pending timer means nothing
happens. -/
def fireTimer (p : Props) (c : CState) : CState :=
  match c.scheduleTimeout with
  | none => c
  | some (_, cb) => runCallback p { c with scheduleTimeout := none } cb

/-- Embeds `getInitialState()` together with the constructor's field initialisation:
flow starts at `EXITED` when animation is enabled, else `ENTERED`; the sticky
flags, the handled-activation record and the override start cleared; no timer
is pending. -/
def initialState (p : Props) : CState :=
  { flowValue := if isAnimate p then FlowValue.exited else FlowValue.entered
  , flowHasEntered := false
  , flowHasExited := false
  , activated := false
  , customDuration := none
  , scheduleTimeout := none }

/-- Observable calls a lifecycle hook makes, in order: the `onActivate` prop
handler, `this.enter()`, `this.exit()`. -/
inductive Call
  | onActivate (activated : Bool)
  | callEnter
  | callExit
deriving DecidableEq, Repr

/-- Embeds `componentDidMount()`: when animation is enabled and the node is
activated, calls `enter()`.  Returns the new state and the trace of calls;
`none` embeds the `isActivated()` throw on a missing parent context. -/
def didMount (p : Props) (c : CState) : Option (CState × List Call) :=
  match isActivated p with
  | Except.error _ => none
  | Except.ok activated =>
    if isAnimate p && activated then
      some (enter p c, [Call.callEnter])
    else
      some (c, [])

/-- Embeds `componentDidUpdate()`: when animation is enabled and the freshly
evaluated activation differs from the recorded one, records it, invokes the
`onActivate` handler when present, then calls `enter()` or `exit()`.
Returns the new state and the trace of calls; `none` embeds the
`isActivated()` throw on a missing parent context. -/
def didUpdate (p : Props) (c : CState) : Option (CState × List Call) :=
  match isActivated p with
  | Except.error _ => none
  | Except.ok activated =>
    if isAnimate p && activated != c.activated then
      let c' := { c with activated := activated }
      let handlerCalls := if p.onActivate then [Call.onActivate activated] else []
      if activated then
        some (enter p c', handlerCalls ++ [Call.callEnter])
      else
        some (exit p c', handlerCalls ++ [Call.callExit])
    else
      some (c, [])

/-- One externally triggered event in a node's life, used to state lifetime
invariants: an `enter()`/`exit()` call, the pending timer firing, an
imperative `updateDuration` call, a lifecycle update (with whatever props are
current), or unmounting.  A lifecycle update whose `isActivated()` throws is
modelled as leaving the state unchanged (the exception propagates before any
state is written). -/
inductive Action
  | actEnter
  | actExit
  | actFire
  | actUpdateDur (d : DurationProp)
  | actDidUpdate
  | actUnmount
deriving DecidableEq, Repr

/-- Whether an action is an imperative duration-override call. -/
def Action.isUpdateDur : Action → Bool
  | Action.actUpdateDur _ => true
  | _ => false

/-- Apply one event under the props current at that moment. -/
def step (c : CState) (pa : Props × Action) : CState :=
  match pa.2 with
  | Action.actEnter => enter pa.1 c
  | Action.actExit => exit pa.1 c
  | Action.actFire => fireTimer pa.1 c
  | Action.actUpdateDur d => updateDuration c d
  | Action.actDidUpdate => ((didUpdate pa.1 c).map Prod.fst).getD c
  | Action.actUnmount => unschedule c

/-- Run a sequence of events, each under its own props (props and ambient
configuration may change arbitrarily between events). -/
def run (c : CState) (l : List (Props × Action)) : CState :=
  l.foldl step c

/-! ## Specification-side definitions (for refinement comparisons) -/

/-- A duration layer as the spec describes it: a bare number is shorthand for
`{enter: n, exit: n}`, leaving `delay` unaffected; an absent input behaves as
an empty object. -/
def specLayerOf : Option DurationProp → PartialDuration
  | none => {}
  | some (DurationProp.num n) => { enter := some n, exit := some n }
  | some (DurationProp.obj d) => d

/-- One duration field resolved per the spec's words: the field takes its
value from the highest-precedence layer that defines it (precedence increases
from the built-in default through ambient and declared to the override). -/
def specResolveField (builtin : Nat) (ambient declared override : Option Nat) : Nat :=
  match override, declared, ambient with
  | some v, _, _ => v
  | none, some v, _ => v
  | none, none, some v => v
  | none, none, none => builtin

/-- Duration resolution per the spec: the field-level overlay, in increasing
precedence, of the built-in default `{enter: 200, exit: 200, delay: 0}`, the
ambient duration, the declared duration, and the override; each field is
resolved independently. -/
def specResolve (ambient : Option PartialDuration)
    (declared override : Option DurationProp) : Duration :=
  let amb := ambient.getD {}
  let dec := specLayerOf declared
  let ovr := specLayerOf override
  { enter := specResolveField 200 amb.enter dec.enter ovr.enter
  , exit := specResolveField 200 amb.exit dec.exit ovr.exit
  , delay := specResolveField 0 amb.delay dec.delay ovr.delay }

/-- Animation enabledness per the spec: default `true`, overridden by the
ambient animate flag, which is in turn overridden by the per-node animate
prop. -/
def specAnimationEnabled (ambientAnimate propAnimate : Option Bool) : Bool :=
  propAnimate.getD (ambientAnimate.getD true)

/-! ## Theorems -/

lemma getD_chain (builtin : Nat) (a b c : Option Nat) :
    c.getD (b.getD (a.getD builtin)) = specResolveField builtin a b c := by
  cases a <;> cases b <;> cases c <;> rfl

lemma customLayer_eq_specLayer (override : Option DurationProp) :
    (override.map customDurationOf).getD {} = specLayerOf override := by
  rcases override with _ | n | d <;> rfl

lemma propLayer_eq_specLayer (declared : Option DurationProp) :
    propDurationOf declared = specLayerOf declared := by
  rcases declared with _ | n | d <;> rfl

/-- Claim C2: For every combination of ambient duration, declared duration
(bare number or partial object) and runtime override, the resolved duration
computed by `getDuration`'s spread chain equals the spec's field-level
overlay: each of enter/exit/delay independently takes its value from the
highest-precedence layer that defines it, absent inputs behaving as empty
objects. -/
theorem getDuration_is_field_overlay (ambient : Option PartialDuration)
    (declared override : Option DurationProp) :
    getDurationFrom ambient declared (override.map customDurationOf)
      = specResolve ambient declared override := by
  unfold getDurationFrom specResolve
  rw [customLayer_eq_specLayer, propLayer_eq_specLayer]
  simp only [spreadDuration, defaultDuration]
  rw [getD_chain, getD_chain, getD_chain]

/-- Claim C6: At creation the initial flow state is `EXITED` exactly when
animation is enabled for the node — default `true`, overridden by the ambient
animate flag, in turn overridden by the per-node animate prop — and `ENTERED`
otherwise. -/
theorem initialState_flow (p : Props) :
    (initialState p).flowValue =
      if specAnimationEnabled p.animationContext.animate p.animate then
        FlowValue.exited
      else
        FlowValue.entered := by
  unfold initialState isAnimate specAnimationEnabled
  rcases p.animate with _ | a <;> rcases p.animationContext.animate with _ | b <;> rfl

/-- Claim C10: A duration override replaces the previous override wholesale:
after overriding with `{delay: d}` and then with a bare number `n`, the
stored override is exactly `{enter: n, exit: n}` with no delay field, the
resolved delay equals the delay resolved with no override at all (the earlier
delay override is discarded), and the number form contributes only the enter
and exit fields. -/
theorem updateDuration_replaces_wholesale (c : CState) (d n : Nat) (p : Props) :
    (updateDuration (updateDuration c (DurationProp.obj { delay := some d }))
        (DurationProp.num n)).customDuration
      = some { enter := some n, exit := some n, delay := none } ∧
    (getDuration p
        (updateDuration (updateDuration c (DurationProp.obj { delay := some d }))
          (DurationProp.num n))).delay
      = (getDuration p { c with customDuration := none }).delay ∧
    (getDuration p
        (updateDuration (updateDuration c (DurationProp.obj { delay := some d }))
          (DurationProp.num n))).enter = n ∧
    (getDuration p
        (updateDuration (updateDuration c (DurationProp.obj { delay := some d }))
          (DurationProp.num n))).exit = n := by
  refine ⟨rfl, ?_, rfl, rfl⟩
  rfl

/-- Concrete props of an explicitly non-root node (`root: false`) that has no
parent energy context. -/
def orphanProps : Props := { root := some false }

/-- Claim C3, counterexample: At the concrete props `{root: false}` with no
parent context, the node is non-root yet `isActivated` does not return
`Except.ok false`: it throws (the parent flow property access fails). -/
theorem isActivated_orphan_counterexample :
    isRoot orphanProps = false ∧
    isActivated orphanProps ≠ Except.ok false ∧
    isActivated orphanProps
      = Except.error "TypeError: cannot read property flow of undefined" := by
  refine ⟨rfl, ?_, rfl⟩
  intro h
  simp [isActivated, isRoot, orphanProps] at h

/-- Claim C3, amended: For every non-root node whose parent propagation source
is missing, the Activation Evaluator fails — the access to the absent parent
context's flow throws — rather than returning "not activated". -/
theorem isActivated_missing_parent_throws (p : Props)
    (hroot : isRoot p = false)
    (hparent : p.parentEnergyContext = none) :
    isActivated p
      = Except.error "TypeError: cannot read property flow of undefined" := by
  unfold isActivated
  rw [hroot, hparent]
  rfl

/-- Witness for `isActivated_missing_parent_throws` at the concrete orphan
props. -/
theorem isActivated_missing_parent_throws_witness :
    isActivated orphanProps
      = Except.error "TypeError: cannot read property flow of undefined" :=
  isActivated_missing_parent_throws orphanProps rfl rfl

/-- Claim C1: From any flow state other than `ENTERING`/`ENTERED`, `enter()`
overwrites the single pending-timer slot (cancelling whatever was pending —
in particular a pending `EXITED` transition when invoked from `EXITING`) with
the enter sequence after `delay = duration.delay` when `EXITED`, else `0`;
when that callback fires it re-reads the duration under the then-current
props, sets the state to `ENTERING`, and schedules the `ENTERED` transition
after `duration.enter`. -/
theorem enter_schedules_sequence (p p' : Props) (c : CState)
    (h1 : c.flowValue ≠ FlowValue.entering)
    (h2 : c.flowValue ≠ FlowValue.entered) :
    enter p c = { c with scheduleTimeout := some (if c.flowValue = FlowValue.exited then (getDuration p c).delay else 0, Callback.enterMain) } ∧
    (fireTimer p' (enter p c)).flowValue = FlowValue.entering ∧
    (fireTimer p' (enter p c)).scheduleTimeout
      = some ((getDuration p' c).enter, Callback.enterDone) ∧
    (fireTimer p' (fireTimer p' (enter p c))).flowValue = FlowValue.entered := by
  have hguard : ¬(c.flowValue = FlowValue.entering ∨ c.flowValue = FlowValue.entered) := by
    rintro (h | h)
    · exact h1 h
    · exact h2 h
  unfold enter
  rw [if_neg hguard]
  exact ⟨rfl, rfl, rfl, rfl⟩

/-- A node in `EXITING` with the `EXITED` transition pending. -/
def cExiting : CState :=
  { flowValue := FlowValue.exiting, scheduleTimeout := some (200, Callback.exitDone) }

/-- Props declaring a symmetric duration of 300ms. -/
def propsA : Props := { duration := some (DurationProp.num 300) }

/-- Props declaring `{enter: 77}`. -/
def propsB : Props := { duration := some (DurationProp.obj { enter := some 77 }) }

/-- Witness for `enter_schedules_sequence`: interrupting an exit re-enters
with zero delay, replaces the pending `EXITED` timer, and the fired callback
uses the duration current at fire time (77, from `propsB`). -/
theorem enter_schedules_sequence_witness :
    enter propsA cExiting
      = { cExiting with scheduleTimeout := some (0, Callback.enterMain) } ∧
    (fireTimer propsB (enter propsA cExiting)).flowValue = FlowValue.entering ∧
    (fireTimer propsB (enter propsA cExiting)).scheduleTimeout
      = some (77, Callback.enterDone) ∧
    (fireTimer propsB (fireTimer propsB (enter propsA cExiting))).flowValue
      = FlowValue.entered := by
  have h := enter_schedules_sequence propsA propsB cExiting (by decide) (by decide)
  exact ⟨h.1.trans (by decide), h.2.1, h.2.2.1.trans (by decide), h.2.2.2⟩

/-- Claim C5: `enter()` in `ENTERING`/`ENTERED` and `exit()` in
`EXITING`/`EXITED` are exact no-ops: the whole instance state — flow value,
sticky flags, recorded activation, override and pending-timer slot — is left
unchanged, and nothing is scheduled. -/
theorem guard_noops (p : Props) (c : CState) :
    ((c.flowValue = FlowValue.entering ∨ c.flowValue = FlowValue.entered) →
      enter p c = c) ∧
    ((c.flowValue = FlowValue.exiting ∨ c.flowValue = FlowValue.exited) →
      exit p c = c) := by
  constructor
  · intro h
    unfold enter
    rw [if_pos h]
  · intro h
    unfold exit
    rw [if_pos h]

/-- A node resting in `ENTERED`. -/
def cEntered : CState := { flowValue := FlowValue.entered, flowHasEntered := true }

/-- A node resting in `EXITED`. -/
def cExited : CState := { flowValue := FlowValue.exited, flowHasExited := true }

/-- Witness for `guard_noops` at concrete `ENTERED` and `EXITED` nodes. -/
theorem guard_noops_witness :
    enter propsA cEntered = cEntered ∧ exit propsA cExited = cExited :=
  ⟨(guard_noops propsA cEntered).1 (Or.inr rfl),
   (guard_noops propsA cExited).2 (Or.inr rfl)⟩

/-- Claim C9: With the flow state `EXITED` and an `enter()` delay callback still
pending, `exit()` returns without touching the state or the pending timer
(its guard fires first), so the node still proceeds to `ENTERING` and then
`ENTERED` despite the deactivation. -/
theorem exit_keeps_pending_enter (p p' p'' : Props) (c : CState) (t : Nat)
    (hflow : c.flowValue = FlowValue.exited)
    (hpend : c.scheduleTimeout = some (t, Callback.enterMain)) :
    exit p c = c ∧
    (fireTimer p' (exit p c)).flowValue = FlowValue.entering ∧
    (fireTimer p'' (fireTimer p' (exit p c))).flowValue = FlowValue.entered := by
  have hx : exit p c = c := by
    unfold exit
    rw [if_pos (Or.inr hflow)]
  refine ⟨hx, ?_, ?_⟩ <;> rw [hx] <;> unfold fireTimer <;> rw [hpend] <;> rfl

/-- A deactivated node still `EXITED`, with the enter delay callback pending. -/
def cPendingEnter : CState :=
  { flowValue := FlowValue.exited, scheduleTimeout := some (5, Callback.enterMain) }

/-- Witness for `exit_keeps_pending_enter` at a concrete pending node. -/
theorem exit_keeps_pending_enter_witness :
    exit propsA cPendingEnter = cPendingEnter ∧
    (fireTimer propsA (exit propsA cPendingEnter)).flowValue = FlowValue.entering ∧
    (fireTimer propsB (fireTimer propsA (exit propsA cPendingEnter))).flowValue
      = FlowValue.entered :=
  exit_keeps_pending_enter propsA propsA propsB cPendingEnter 5 rfl rfl

lemma setFlowValue_flowValue (c : CState) (v : FlowValue) :
    (setFlowValue c v).flowValue = v := rfl

lemma setFlowValue_mono_entered (c : CState) (v : FlowValue)
    (h : c.flowHasEntered = true) : (setFlowValue c v).flowHasEntered = true := by
  simp [setFlowValue, h]

lemma setFlowValue_mono_exited (c : CState) (v : FlowValue)
    (h : c.flowHasExited = true) : (setFlowValue c v).flowHasExited = true := by
  simp [setFlowValue, h]

lemma enter_projections (p : Props) (c : CState) :
    (enter p c).flowValue = c.flowValue ∧
    (enter p c).flowHasEntered = c.flowHasEntered ∧
    (enter p c).flowHasExited = c.flowHasExited ∧
    (enter p c).customDuration = c.customDuration := by
  unfold enter
  split <;> exact ⟨rfl, rfl, rfl, rfl⟩

lemma exit_projections (p : Props) (c : CState) :
    (exit p c).flowValue = c.flowValue ∧
    (exit p c).flowHasEntered = c.flowHasEntered ∧
    (exit p c).flowHasExited = c.flowHasExited ∧
    (exit p c).customDuration = c.customDuration := by
  unfold exit
  split <;> exact ⟨rfl, rfl, rfl, rfl⟩

lemma setFlowValue_flags (c : CState) (v : FlowValue) :
    ((setFlowValue c v).flowHasEntered = true ∨
      (setFlowValue c v).flowHasEntered = c.flowHasEntered) ∧
    ((setFlowValue c v).flowHasExited = true ∨
      (setFlowValue c v).flowHasExited = c.flowHasExited) := by
  unfold setFlowValue
  constructor
  · by_cases h : v = FlowValue.entered <;> simp [h]
  · by_cases h : v = FlowValue.exited <;> simp [h]

lemma runCallback_flags (p : Props) (c : CState) (cb : Callback) :
    ((runCallback p c cb).flowHasEntered = true ∨
      (runCallback p c cb).flowHasEntered = c.flowHasEntered) ∧
    ((runCallback p c cb).flowHasExited = true ∨
      (runCallback p c cb).flowHasExited = c.flowHasExited) := by
  cases cb with
  | enterMain => exact setFlowValue_flags c FlowValue.entering
  | enterDone => exact setFlowValue_flags c FlowValue.entered
  | exitMain => exact setFlowValue_flags c FlowValue.exiting
  | exitDone => exact setFlowValue_flags c FlowValue.exited

lemma fireTimer_flags (p : Props) (c : CState) :
    ((fireTimer p c).flowHasEntered = true ∨
      (fireTimer p c).flowHasEntered = c.flowHasEntered) ∧
    ((fireTimer p c).flowHasExited = true ∨
      (fireTimer p c).flowHasExited = c.flowHasExited) := by
  unfold fireTimer
  split
  · exact ⟨Or.inr rfl, Or.inr rfl⟩
  · exact runCallback_flags p _ _

lemma didUpdate_state (p : Props) (c : CState) :
    (((didUpdate p c).map Prod.fst).getD c).flowValue = c.flowValue ∧
    (((didUpdate p c).map Prod.fst).getD c).flowHasEntered = c.flowHasEntered ∧
    (((didUpdate p c).map Prod.fst).getD c).flowHasExited = c.flowHasExited ∧
    (((didUpdate p c).map Prod.fst).getD c).customDuration = c.customDuration := by
  unfold didUpdate
  split
  · exact ⟨rfl, rfl, rfl, rfl⟩
  · rename_i activated heq
    dsimp only
    by_cases hch : (isAnimate p && activated != c.activated) = true
    · rw [if_pos hch]
      by_cases ha : activated = true
      · rw [if_pos ha]
        exact enter_projections p _
      · rw [if_neg ha]
        exact exit_projections p _
    · rw [if_neg hch]
      exact ⟨rfl, rfl, rfl, rfl⟩

lemma step_mono_flags (c : CState) (pa : Props × Action) :
    ((step c pa).flowHasEntered = true ∨ (step c pa).flowHasEntered = c.flowHasEntered) ∧
    ((step c pa).flowHasExited = true ∨ (step c pa).flowHasExited = c.flowHasExited) := by
  rcases pa with ⟨p, a⟩
  cases a with
  | actEnter =>
    exact ⟨Or.inr (enter_projections p c).2.1, Or.inr (enter_projections p c).2.2.1⟩
  | actExit =>
    exact ⟨Or.inr (exit_projections p c).2.1, Or.inr (exit_projections p c).2.2.1⟩
  | actFire => exact fireTimer_flags p c
  | actUpdateDur d => exact ⟨Or.inr rfl, Or.inr rfl⟩
  | actDidUpdate =>
    exact ⟨Or.inr (didUpdate_state p c).2.1, Or.inr (didUpdate_state p c).2.2.1⟩
  | actUnmount => exact ⟨Or.inr rfl, Or.inr rfl⟩

lemma run_mono_flags (c : CState) (l : List (Props × Action)) :
    (c.flowHasEntered = true → (run c l).flowHasEntered = true) ∧
    (c.flowHasExited = true → (run c l).flowHasExited = true) := by
  induction l generalizing c with
  | nil => exact ⟨fun h => h, fun h => h⟩
  | cons pa rest ih =>
    constructor <;> intro h
    · refine (ih (step c pa)).1 ?_
      rcases (step_mono_flags c pa).1 with h' | h'
      · exact h'
      · exact h'.trans h
    · refine (ih (step c pa)).2 ?_
      rcases (step_mono_flags c pa).2 with h' | h'
      · exact h'
      · exact h'.trans h

/-- The marker invariant: whenever the flow value has been brought to
`ENTERED` (resp. `EXITED`) by a transition, the corresponding sticky marker
is set. -/
def markerInv (c : CState) : Prop :=
  (c.flowValue = FlowValue.entered → c.flowHasEntered = true) ∧
  (c.flowValue = FlowValue.exited → c.flowHasExited = true)

lemma runCallback_markerInv (p : Props) (c : CState) (cb : Callback) :
    markerInv (runCallback p c cb) := by
  cases cb <;> simp [markerInv, runCallback, schedule, unschedule, setFlowValue]

lemma step_markerInv (c : CState) (pa : Props × Action) (h : markerInv c) :
    markerInv (step c pa) := by
  rcases pa with ⟨p, a⟩
  cases a with
  | actEnter =>
    refine ⟨fun hv => ?_, fun hv => ?_⟩
    · exact (enter_projections p c).2.1.trans (h.1 ((enter_projections p c).1.symm.trans hv))
    · exact (enter_projections p c).2.2.1.trans (h.2 ((enter_projections p c).1.symm.trans hv))
  | actExit =>
    refine ⟨fun hv => ?_, fun hv => ?_⟩
    · exact (exit_projections p c).2.1.trans (h.1 ((exit_projections p c).1.symm.trans hv))
    · exact (exit_projections p c).2.2.1.trans (h.2 ((exit_projections p c).1.symm.trans hv))
  | actFire =>
    show markerInv (fireTimer p c)
    unfold fireTimer
    split
    · exact h
    · exact runCallback_markerInv p _ _
  | actUpdateDur d => exact h
  | actDidUpdate =>
    refine ⟨fun hv => ?_, fun hv => ?_⟩
    · exact (didUpdate_state p c).2.1.trans (h.1 ((didUpdate_state p c).1.symm.trans hv))
    · exact (didUpdate_state p c).2.2.1.trans (h.2 ((didUpdate_state p c).1.symm.trans hv))
  | actUnmount => exact h

lemma run_markerInv (c : CState) (l : List (Props × Action)) (h : markerInv c) :
    markerInv (run c l) := by
  induction l generalizing c with
  | nil => exact h
  | cons pa rest ih => exact ih (step c pa) (step_markerInv c pa h)

/-- Claim C7: The markers are sticky and truthful: `setFlowValue` sets
`flowHasEntered`/`flowHasExited` the moment the flow value reaches
`ENTERED`/`EXITED`; the marker invariant (a flow value brought to
`ENTERED`/`EXITED` has its marker set) is preserved by every sequence of
events; and once a marker is `true` it stays `true` across any sequence of
enter/exit cycles, timer firings, override calls and lifecycle updates. -/
theorem markers_sticky (c : CState) (l : List (Props × Action)) :
    (setFlowValue c FlowValue.entered).flowHasEntered = true ∧
    (setFlowValue c FlowValue.exited).flowHasExited = true ∧
    (markerInv c → markerInv (run c l)) ∧
    (c.flowHasEntered = true → (run c l).flowHasEntered = true) ∧
    (c.flowHasExited = true → (run c l).flowHasExited = true) := by
  refine ⟨?_, ?_, run_markerInv c l, (run_mono_flags c l).1, (run_mono_flags c l).2⟩
  · simp [setFlowValue]
  · simp [setFlowValue]

/-- A full enter cycle, an exit cycle, an override and a lifecycle update,
under changing props. -/
def lifeEvents : List (Props × Action) :=
  [ (propsA, Action.actEnter), (propsA, Action.actFire), (propsB, Action.actFire)
  , (propsB, Action.actUpdateDur (DurationProp.num 9)), (propsB, Action.actExit)
  , (propsB, Action.actFire), (propsB, Action.actFire), (propsB, Action.actDidUpdate)
  , (propsB, Action.actEnter), (propsB, Action.actUnmount) ]

/-- Witness for `markers_sticky`: from a node that already completed one
entry and one exit, the markers survive a further full cycle of events. -/
theorem markers_sticky_witness :
    (setFlowValue cEntered FlowValue.entered).flowHasEntered = true ∧
    markerInv (run cEntered lifeEvents) ∧
    (run cEntered lifeEvents).flowHasEntered = true := by
  have h := markers_sticky cEntered lifeEvents
  exact ⟨h.1, h.2.2.1 (by constructor <;> intro hv <;> simp_all [cEntered]),
    h.2.2.2.1 rfl⟩

lemma runCallback_customDuration (p : Props) (c : CState) (cb : Callback) :
    (runCallback p c cb).customDuration = c.customDuration := by
  cases cb <;> rfl

lemma step_customDuration (c : CState) (pa : Props × Action)
    (h : pa.2.isUpdateDur = false) :
    (step c pa).customDuration = c.customDuration := by
  rcases pa with ⟨p, a⟩
  cases a with
  | actEnter => exact (enter_projections p c).2.2.2
  | actExit => exact (exit_projections p c).2.2.2
  | actFire =>
    show (fireTimer p c).customDuration = c.customDuration
    unfold fireTimer
    split
    · rfl
    · exact runCallback_customDuration p _ _
  | actUpdateDur d => exact absurd h (by simp [Action.isUpdateDur])
  | actDidUpdate => exact (didUpdate_state p c).2.2.2
  | actUnmount => rfl

lemma run_customDuration (c : CState) (l : List (Props × Action))
    (h : ∀ pa ∈ l, pa.2.isUpdateDur = false) :
    (run c l).customDuration = c.customDuration := by
  induction l generalizing c with
  | nil => rfl
  | cons pa rest ih =>
    exact (ih (step c pa) (fun x hx => h x (List.mem_cons_of_mem pa hx))).trans
      (step_customDuration c pa (h pa (List.mem_cons_self pa rest)))

/-- Claim C8: The most recently set duration override wins and persists: a
second `updateDuration` call replaces the stored override of a first one; any
sequence of events containing no further override call — enter/exit calls,
timer firings, lifecycle updates under arbitrarily changing props and ambient
configuration — leaves the stored override untouched; and the duration
resolver applies exactly that stored override as its highest-precedence
layer. -/
theorem override_latest_wins (c : CState) (d d' : DurationProp) (p : Props)
    (l : List (Props × Action)) (h : ∀ pa ∈ l, pa.2.isUpdateDur = false) :
    (updateDuration (updateDuration c d') d).customDuration
      = some (customDurationOf d) ∧
    (run (updateDuration c d) l).customDuration = some (customDurationOf d) ∧
    getDuration p (run (updateDuration c d) l)
      = getDurationFrom p.animationContext.duration p.duration
          (some (customDurationOf d)) := by
  have hrun : (run (updateDuration c d) l).customDuration
      = some (customDurationOf d) :=
    run_customDuration (updateDuration c d) l h
  refine ⟨rfl, hrun, ?_⟩
  unfold getDuration
  rw [hrun]

/-- Witness for `override_latest_wins`: overriding with `{delay: 9}` then
with `300` persists `{enter: 300, exit: 300}` across an enter cycle and a
lifecycle update under changed props, and the resolver applies it. -/
theorem override_latest_wins_witness :
    (updateDuration (updateDuration cExited (DurationProp.obj { delay := some 9 }))
        (DurationProp.num 300)).customDuration
      = some { enter := some 300, exit := some 300, delay := none } ∧
    (run (updateDuration cExited (DurationProp.num 300))
        [ (propsA, Action.actEnter), (propsB, Action.actFire)
        , (propsB, Action.actDidUpdate), (propsB, Action.actFire) ]).customDuration
      = some { enter := some 300, exit := some 300, delay := none } ∧
    getDuration propsB
        (run (updateDuration cExited (DurationProp.num 300))
          [ (propsA, Action.actEnter), (propsB, Action.actFire)
          , (propsB, Action.actDidUpdate), (propsB, Action.actFire) ])
      = { enter := 300, exit := 300, delay := 0 } := by
  have h := override_latest_wins cExited (DurationProp.num 300)
    (DurationProp.obj { delay := some 9 }) propsB
    [ (propsA, Action.actEnter), (propsB, Action.actFire)
    , (propsB, Action.actDidUpdate), (propsB, Action.actFire) ] (by decide)
  exact ⟨h.1, h.2.1, h.2.2.trans (by decide)⟩

/-- Claim C4: The `onActivate` discipline: `componentDidMount` never invokes
the handler; `componentDidUpdate` invokes it exactly once when animation is
enabled, the freshly observed activation differs from the recorded one and a
handler is provided — and zero times otherwise — and the invocation strictly
precedes the corresponding `enter()`/`exit()` call. -/
theorem onActivate_discipline (c st : CState) (p : Props) (a : Bool)
    (calls : List Call) (ha : isActivated p = Except.ok a) :
    (didMount p c = some (st, calls) →
      calls.count (Call.onActivate true) + calls.count (Call.onActivate false) = 0) ∧
    (didUpdate p c = some (st, calls) →
      calls.count (Call.onActivate a)
        = (if isAnimate p && (a != c.activated) && p.onActivate then 1 else 0) ∧
      (isAnimate p = true → a ≠ c.activated → p.onActivate = true →
        calls.indexOf (Call.onActivate a)
          < calls.indexOf (if a then Call.callEnter else Call.callExit))) := by
  constructor
  · intro heq
    unfold didMount at heq
    rw [ha] at heq
    dsimp only at heq
    by_cases hm : (isAnimate p && a) = true
    · rw [if_pos hm] at heq
      simp only [Option.some.injEq, Prod.mk.injEq] at heq
      obtain ⟨-, hcalls⟩ := heq
      subst hcalls
      decide
    · rw [if_neg hm] at heq
      simp only [Option.some.injEq, Prod.mk.injEq] at heq
      obtain ⟨-, hcalls⟩ := heq
      subst hcalls
      decide
  · intro heq
    unfold didUpdate at heq
    rw [ha] at heq
    dsimp only at heq
    by_cases h1 : (isAnimate p && (a != c.activated)) = true
    · rw [if_pos h1] at heq
      have hani : isAnimate p = true := (Bool.and_eq_true _ _ |>.mp h1).1
      by_cases hp : p.onActivate = true <;> cases a <;>
          simp only [hp, if_true, if_false, Bool.false_eq_true, if_neg,
            Bool.true_eq_false, reduceIte] at heq <;>
          simp only [Option.some.injEq, Prod.mk.injEq] at heq <;>
          obtain ⟨-, hcalls⟩ := heq <;>
          subst hcalls <;>
          refine ⟨?_, fun _ _ hp' => ?_⟩ <;>
          first
            | decide
            | simp_all [h1, hani, List.count, List.indexOf]
    · rw [if_neg h1] at heq
      simp only [Option.some.injEq, Prod.mk.injEq] at heq
      obtain ⟨-, hcalls⟩ := heq
      subst hcalls
      refine ⟨?_, fun hani hne hp' => ?_⟩
      · have hfalse : (isAnimate p && (a != c.activated)) = false :=
          Bool.eq_false_iff.mpr h1
        simp [hfalse]
      · exact absurd (by simp [hani, bne_iff_ne, hne]) h1

/-- Props of an activated root node that provides an `onActivate` handler. -/
def props4 : Props := { activate := some true, onActivate := true }

/-- The state `componentDidMount` leaves behind for `props4`. -/
def mountState4 : CState := enter props4 (initialState props4)

/-- The state the witnessed `componentDidUpdate` leaves behind. -/
def updateState4 : CState :=
  enter props4 { initialState props4 with activated := true }

/-- Witness for `onActivate_discipline`: at a freshly created activated root
node with a handler, mount emits no handler call, while the first lifecycle
update emits exactly one `onActivate true` and it precedes the `enter()`
call. -/
theorem onActivate_discipline_witness :
    ([Call.callEnter].count (Call.onActivate true)
      + [Call.callEnter].count (Call.onActivate false) = 0) ∧
    ([Call.onActivate true, Call.callEnter].count (Call.onActivate true)
      = (if isAnimate props4 && (true != (initialState props4).activated)
            && props4.onActivate then 1 else 0)) ∧
    [Call.onActivate true, Call.callEnter].indexOf (Call.onActivate true)
      < [Call.onActivate true, Call.callEnter].indexOf
          (if true then Call.callEnter else Call.callExit) := by
  have hm := (onActivate_discipline (initialState props4) mountState4 props4 true
    [Call.callEnter] rfl).1 (by decide)
  have hu := (onActivate_discipline (initialState props4) updateState4 props4 true
    [Call.onActivate true, Call.callEnter] rfl).2 (by decide)
  exact ⟨hm, hu.1, hu.2 (by decide) (by decide) (by decide)⟩

end Energy
